import Mathlib

/-!
Verification development for the ssm-env repository (Clasyc/ssm-env).

The repository snapshot contains three variants of the program:
  * the `SSMManager` variant (first file in `src/main.go`): flag parsing with
    `-prefix`/`-quiet`, an outer `for { run() }` loop in `main`, a retry wrapper
    `updateParameterWithRetry` (5 attempts, 200 ms delay), reconciliation of the
    cached `latestParam` into the fetched listing, and name-stripping display via
    `strings.TrimPrefix`;
  * the `part_001` variant (`src/unnamed/part_001`): flags `-prefix`/`-debug`/`-secure`,
    a single `main` loop, reconciliation and sorting, masked display of
    `SecureString` values, creation with `Overwrite: false`, single-attempt writes;
  * the legacy variant (second file in `src/main.go`): no reconciliation, no sort,
    single-attempt writes that hardcode the parameter type `SecureString`.

Pure fragments (formatting, reconciliation, sorting, retry) are embedded as Lean
functions on a `Parameter` record mirroring `ssm.Parameter` (the `*string` fields
are always non-nil on the paths used, so they are modelled as plain strings).
The interactive loop bodies are embedded as functions from an environment record
(the outcomes of the fetch, the prompts and the remote write) to the resulting
error value, `latestParam` cache, and issued write, mirroring the Go control flow
statement by statement.
-/

namespace SsmEnv

/-- Mirror of `ssm.Parameter` as used by the program: `*param.Name`,
`*param.Value`, `*param.Type`. -/
structure Parameter where
  name : String
  value : String
  type : String
deriving DecidableEq, Repr

/-- Mirror of `ssm.PutParameterInput` as constructed by the program:
name, value, type and the overwrite flag. -/
structure PutParameterInput where
  name : String
  value : String
  type : String
  overwrite : Bool
deriving DecidableEq, Repr

/-! ### String helpers

Go's `string` comparison, `strings.Split`, `strings.SplitN`, `strings.TrimSpace`
and `strings.TrimPrefix` are modelled on `List Char`. For valid UTF-8, Go's
byte-wise lexicographic `<` agrees with code-point-wise lexicographic order,
which is what `charListLt` computes. -/

/-- Lexicographic strict order on char lists: model of Go's `<` on strings
(byte-wise lexicographic, which coincides with code-point order on UTF-8). -/
def charListLt : List Char → List Char → Bool
  | [], [] => false
  | [], _ :: _ => true
  | _ :: _, [] => false
  | x :: xs, y :: ys => decide (x < y) || (decide (x = y) && charListLt xs ys)

/-- Model of Go's `s1 < s2` on strings. -/
def nameLt (a b : String) : Bool :=
  charListLt a.data b.data

/-- Everything before the first occurrence of `" = "`: model of
`strings.SplitN(s, " = ", 2)[0]`, used to recover the key from a menu item. -/
def takeUntilSep : List Char → List Char
  | [] => []
  | ' ' :: '=' :: ' ' :: _ => []
  | c :: cs => c :: takeUntilSep cs

/-- Model of `strings.SplitN(s, " = ", 2)[0]`. -/
def extractKey (s : String) : String :=
  ⟨takeUntilSep s.data⟩

/-- Everything after the last `'/'` (the whole string when there is none):
model of `name := strings.Split(s, "/"); name[len(name)-1]`. -/
def lastComp (s : String) : String :=
  ⟨s.data.foldl (fun acc c => if c = '/' then [] else acc ++ [c]) []⟩

/-- Drop leading whitespace characters. -/
def dropWhileWs : List Char → List Char
  | [] => []
  | c :: cs => if c.isWhitespace then dropWhileWs cs else c :: cs

/-- Model of `strings.TrimSpace` (all concrete inputs in this development are
ASCII, where `Char.isWhitespace` agrees with `unicode.IsSpace`). -/
def trimString (s : String) : String :=
  ⟨dropWhileWs (dropWhileWs s.data.reverse).reverse⟩

/-- List-prefix test used to model `strings.TrimPrefix`. -/
def isPre : List Char → List Char → Bool
  | [], _ => true
  | _ :: _, [] => false
  | a :: as, b :: bs => decide (a = b) && isPre as bs

/-- Model of `strings.TrimPrefix(s, pre)`. -/
def trimPre (pre s : String) : String :=
  if isPre pre.data s.data then ⟨s.data.drop pre.data.length⟩ else s

/-! ### Reconciler and sorting (shared by the SSMManager and part_001 variants)

`src/main.go` lines 129-143 and `src/unnamed/part_001` lines 60-73: after a
fetch, if `latestParam != nil`, the first entry with the same `Name` is replaced
by `latestParam` (the loop `break`s after the first hit), and then the slice is
sorted ascending by `*Name` with `sort.Slice`. -/

/-- Replace the first entry whose name equals `w.name` by `w`; model of the
`for i, param := range parameters { if *param.Name == *latestParam.Name { parameters[i] = latestParam; break } }`
loop. -/
def applyLatest (w : Parameter) : List Parameter → List Parameter
  | [] => []
  | p :: ps => if p.name = w.name then w :: ps else p :: applyLatest w ps

/-- Apply the cached latest write when present. -/
def applyLatestOpt (latest : Option Parameter) (ps : List Parameter) : List Parameter :=
  match latest with
  | none => ps
  | some w => applyLatest w ps

/-- Insertion step for sorting by name with the Go comparator `*Name < *Name`. -/
def insertByName (p : Parameter) : List Parameter → List Parameter
  | [] => [p]
  | q :: qs => if nameLt p.name q.name then p :: q :: qs else q :: insertByName p qs

/-- Sort ascending by full name: model of
`sort.Slice(parameters, func(i, j int) bool { return *parameters[i].Name < *parameters[j].Name })`.
(With pairwise-distinct names — the situation in SSM, where full names are
unique — every correct sort for this comparator produces the same list, so the
choice of insertion sort is immaterial.) -/
def sortByName : List Parameter → List Parameter
  | [] => []
  | p :: ps => insertByName p (sortByName ps)

/-- The reconciliation performed after each fetch: merge the cached latest write
into the listing, then sort by name. -/
def reconcile (latest : Option Parameter) (ps : List Parameter) : List Parameter :=
  sortByName (applyLatestOpt latest ps)

/-! ### Presentation formatter -/

/-- The fixed placeholder shown for masked values in part_001. -/
def maskSecret : String := "******"

/-- Model of part_001's `formatParameters` body for a single entry:
the value is replaced by `"******"` when secure mode is on and the type is
`SecureString`; the displayed key is the last `/`-component of the name. -/
def formatParameter (secure : Bool) (p : Parameter) : String :=
  lastComp p.name ++ " = " ++ (if secure && p.type == "SecureString" then maskSecret else p.value)

/-- Model of part_001's `formatParameters` (one line per entry, in order). -/
def formatParameters (ps : List Parameter) (secure : Bool) : List String :=
  ps.map (formatParameter secure)

/-- Model of the SSMManager variant's `formatParameters`: name with the session
prefix stripped via `strings.TrimPrefix`, always the true value (no masking). -/
def formatParameters_main (pfx : String) (ps : List Parameter) : List String :=
  ps.map (fun p => trimPre pfx p.name ++ " = " ++ p.value)

/-! ### Writes issued by each variant -/

/-- The `PutParameterInput` issued by the SSMManager variant's
`createNewParameter` (via `updateParameterWithRetry`): `Overwrite: aws.Bool(true)`. -/
def createPut_main (pfx nm value ptype : String) : PutParameterInput :=
  ⟨pfx ++ nm, value, ptype, true⟩

/-- The `PutParameterInput` issued by part_001's `createNewParameter`:
`Overwrite: aws.Bool(false)`. -/
def createPut_part001 (pfx nm value ptype : String) : PutParameterInput :=
  ⟨pfx ++ nm, value, ptype, false⟩

/-- The `PutParameterInput` issued by the legacy variant's `updateParameter`:
the type is hardcoded to `"SecureString"`, `Overwrite: aws.Bool(true)`. -/
def editPut_legacy (nm value : String) : PutParameterInput :=
  ⟨nm, value, "SecureString", true⟩

/-- The legacy variant's edit step after reading and trimming a new value:
an empty value cancels; otherwise a write with hardcoded type `SecureString`
is issued for `prefix + <key from the menu item>`. -/
def editStep_legacy (p : Parameter) (pfx newValue : String) : Option PutParameterInput :=
  if newValue = "" then none
  else some (editPut_legacy (pfx ++ extractKey (formatParameter false p)) newValue)

/-! ### Remote store -/

/-- Modelled from the spec: the remote store's `Write` (AWS `PutParameter`) is
not part of this repository; per section 4.1 of the spec it upserts one entry,
and when the overwrite flag is off it fails if the name already exists, leaving
the store unchanged. Result: the store after the call, and the error if any. -/
def putParameter (store : List Parameter) (put : PutParameterInput) :
    List Parameter × Option String :=
  if store.any (fun p => p.name == put.name) then
    if put.overwrite then
      (store.map (fun p => if p.name == put.name then ⟨put.name, put.value, put.type⟩ else p), none)
    else (store, some "ParameterAlreadyExists")
  else (store ++ [⟨put.name, put.value, put.type⟩], none)

/-! ### Retry logic (SSMManager variant only)

`src/main.go` lines 18-21 and 324-338: `maxRetries = 5`,
`retryDelay = 200 * time.Millisecond`; `updateParameterWithRetry` loops
`for i := 0; i < maxRetries; i++`, returns nil on the first successful
`PutParameter`, sleeps `retryDelay` after each failure, and after the loop
returns `fmt.Errorf("failed to update parameter after %d attempts", maxRetries)`.
The remote outcome of attempt `i` is abstracted as `outcome i`
(`none` = success, `some e` = the AWS error of that attempt). -/

def maxRetries : Nat := 5

/-- The fixed inter-attempt delay, in milliseconds (`200 * time.Millisecond`). -/
def retryDelayMs : Nat := 200

/-- The terminal error produced after exhausting the retry budget. -/
def retryFailMsg : String :=
  "failed to update parameter after " ++ toString maxRetries ++ " attempts"

/-- The retry loop, counting attempts: `retryAux outcome i fuel` runs the loop
body starting at attempt index `i` with `fuel` iterations remaining, returning
the number of `PutParameter` calls made and the final error (if any). -/
def retryAux (outcome : Nat → Option String) : Nat → Nat → Nat × Option String
  | _, 0 => (0, some retryFailMsg)
  | i, fuel + 1 =>
    match outcome i with
    | none => (1, none)
    | some _ =>
      let r := retryAux outcome (i + 1) fuel
      (r.1 + 1, r.2)

/-- Model of `updateParameterWithRetry`: attempt count and final result. -/
def updateParameterWithRetry (outcome : Nat → Option String) : Nat × Option String :=
  retryAux outcome 0 maxRetries

/-- Model of part_001's `updateParameter` (and the legacy variant's): one single
`PutParameter` call, whose error is passed through unchanged; no retry loop. -/
def putOnce_part001 (outcome : Nat → Option String) : Nat × Option String :=
  (1, outcome 0)

/-! ### The SSMManager variant's loop (`main` + `run`, src/main.go lines 30-78)

`main` loops forever: it calls `run()`; when `run` returns an error whose
message is exactly `"user quit"` it returns (process exit), otherwise it logs
the error and iterates again. All prompt outcomes and the remote-write outcomes
are inputs of the model. `promptui.ErrInterrupt` carries the message `"^C"`. -/

/-- Message of `promptui.ErrInterrupt` / `readline`'s interrupt as surfaced by
the wrapped error strings. -/
def interruptMsg : String := "^C"

/-- Outcome of `promptui.Prompt.Run` / `promptui.Select.Run` for the creation
prompts (any error, interrupt included, is returned to the caller). -/
inductive PromptOutcome where
  | ok (s : String)
  | interrupted
deriving DecidableEq, Repr

/-- Outcome of the readline-based new-value prompt. -/
inductive ReadOutcome where
  | ok (s : String)
  | interrupted
  | failed (msg : String)
deriving DecidableEq, Repr

/-- Outcome of `promptForAction` in the SSMManager variant: the chosen item
("Quit", "Create new variable" at index 0, or a formatted parameter line),
or a prompt error. -/
inductive ActionOutcome where
  | quitItem
  | createItem
  | selection (item : String)
  | interrupted
  | failed (msg : String)
deriving DecidableEq, Repr

/-- Outcome of part_001's selection prompt: chosen index into
`"Create new variable" :: formatted parameters`, or a prompt error. -/
inductive SelectOutcome where
  | selected (index : Nat)
  | interrupted
  | failed (msg : String)
deriving DecidableEq, Repr

/-- Whether the enclosing loop keeps running after an iteration. -/
inductive LoopDecision where
  | halt
  | loop
deriving DecidableEq, Repr

/-- The external outcomes consumed by one pass of `SSMManager.run`. -/
structure RunEnv where
  fetched : Except String (List Parameter)
  action : ActionOutcome
  createName : PromptOutcome
  createValue : PromptOutcome
  createType : PromptOutcome
  editRead : ReadOutcome
  putOutcomes : Nat → Option String

/-- Result of one pass of `SSMManager.run`: the error returned to `main`
(`none` = nil), the `latestParam` cache afterwards, and the write issued
to the remote store (if any). -/
structure RunResult where
  err : Option String
  latest : Option Parameter
  write : Option PutParameterInput
deriving DecidableEq, Repr

/-- Model of one pass of `SSMManager.run` (src/main.go lines 56-78 together
with the handlers it dispatches to, lines 104-338). -/
def run_main (pfx : String) (latest : Option Parameter) (env : RunEnv) : RunResult :=
  match env.fetched with
  | .error e => ⟨some ("error fetching parameters: " ++ e), latest, none⟩
  | .ok fetchedParams =>
    let params := reconcile latest fetchedParams
    match env.action with
    | .interrupted => ⟨some ("error prompting for action: " ++ interruptMsg), latest, none⟩
    | .failed e => ⟨some ("error prompting for action: " ++ e), latest, none⟩
    | .quitItem => ⟨some "user quit", latest, none⟩
    | .createItem =>
      match env.createName with
      | .interrupted => ⟨some interruptMsg, latest, none⟩
      | .ok cname =>
        match env.createValue with
        | .interrupted => ⟨some interruptMsg, latest, none⟩
        | .ok cvalue =>
          match env.createType with
          | .interrupted => ⟨some interruptMsg, latest, none⟩
          | .ok ctype =>
            let put := createPut_main pfx cname cvalue ctype
            match (updateParameterWithRetry env.putOutcomes).2 with
            | none => ⟨none, latest, some put⟩
            | some e => ⟨some ("failed to create parameter: " ++ e), latest, some put⟩
    | .selection item =>
      let fullName := pfx ++ extractKey item
      match params.find? (fun p => p.name == fullName) with
      | none => ⟨some ("parameter not found: " ++ fullName), latest, none⟩
      | some param =>
        match env.editRead with
        | .interrupted => ⟨some "update cancelled", latest, none⟩
        | .failed e => ⟨some e, latest, none⟩
        | .ok raw =>
          let newValue := trimString raw
          if newValue = param.value then ⟨none, latest, none⟩
          else
            let put : PutParameterInput := ⟨fullName, newValue, param.type, true⟩
            match (updateParameterWithRetry env.putOutcomes).2 with
            | none => ⟨none, some ⟨fullName, newValue, param.type⟩, some put⟩
            | some e => ⟨some ("error updating parameter: " ++ e), latest, some put⟩

/-- Model of the `for` loop in the SSMManager variant's `main`
(src/main.go lines 46-54): the loop returns (halting the process) exactly when
`run` produced an error whose message is `"user quit"`; a nil error or any
other error message (which is logged) leads to another iteration. -/
def mainLoopDecision (r : RunResult) : LoopDecision :=
  match r.err with
  | none => .loop
  | some msg => if msg = "user quit" then .halt else .loop

/-! ### The part_001 variant's loop (src/unnamed/part_001 lines 52-205) -/

/-- The external outcomes consumed by one iteration of part_001's main loop. -/
structure IterEnv where
  fetched : Except String (List Parameter)
  sel : SelectOutcome
  createName : PromptOutcome
  createValue : PromptOutcome
  createType : PromptOutcome
  editRead : ReadOutcome
  writeErr : Option String

/-- Result of one iteration of part_001's main loop: whether the loop keeps
running, the `latestParam` cache afterwards, and the write issued (if any). -/
structure IterResult where
  decision : LoopDecision
  latest : Option Parameter
  write : Option PutParameterInput
deriving DecidableEq, Repr

/-- Model of part_001's `createNewParameter` prompts (lines 259-296): any
cancelled prompt abandons the creation (an error is returned and printed);
on completion a write with `Overwrite: false` is issued. -/
def createFlow_part001 (pfx : String) (nameP valueP typeP : PromptOutcome) :
    Option PutParameterInput :=
  match nameP with
  | .interrupted => none
  | .ok cname =>
    match valueP with
    | .interrupted => none
    | .ok cvalue =>
      match typeP with
      | .interrupted => none
      | .ok ctype => some (createPut_part001 pfx cname cvalue ctype)

/-- Model of one iteration of part_001's main loop body (lines 52-205):
fetch (errors halt), reconcile and sort, select (interrupt or prompt failure
halts; index 0 starts creation; index i+1 edits the i-th sorted entry), read the
new value (interrupt skips; other failures halt), skip when the trimmed input is
empty or equal to the compared current value (which is `""` in secure mode), and
otherwise issue the write, updating `latestParam` only on success. -/
def iterate_part001 (secure : Bool) (pfx : String) (latest : Option Parameter)
    (env : IterEnv) : IterResult :=
  match env.fetched with
  | .error _ => ⟨.halt, latest, none⟩
  | .ok fetchedParams =>
    let params := reconcile latest fetchedParams
    match env.sel with
    | .interrupted => ⟨.halt, latest, none⟩
    | .failed _ => ⟨.halt, latest, none⟩
    | .selected 0 =>
      match createFlow_part001 pfx env.createName env.createValue env.createType with
      | none => ⟨.loop, latest, none⟩
      | some put => ⟨.loop, latest, some put⟩
    | .selected (i + 1) =>
      if h : i < params.length then
        let p := params.get ⟨i, h⟩
        let fullName := pfx ++ extractKey (formatParameter secure p)
        let currentValue := if secure then "" else p.value
        match env.editRead with
        | .interrupted => ⟨.loop, latest, none⟩
        | .failed _ => ⟨.halt, latest, none⟩
        | .ok raw =>
          let newValue := trimString raw
          if newValue = "" ∨ newValue = currentValue then ⟨.loop, latest, none⟩
          else
            let put : PutParameterInput := ⟨fullName, newValue, p.type, true⟩
            match env.writeErr with
            | some _ => ⟨.loop, latest, some put⟩
            | none => ⟨.loop, some ⟨fullName, newValue, p.type⟩, some put⟩
      else ⟨.loop, latest, none⟩

/-! ## Helper lemmas -/

/-- The executable comparator agrees with the lexicographic order on char
lists (`List.Lex (· < ·)`, the order underlying Mathlib's `String` order). -/
theorem charListLt_iff : ∀ (a b : List Char), charListLt a b = true ↔ a < b := by
  intro a
  induction a with
  | nil =>
    intro b
    cases b with
    | nil =>
      simp only [charListLt]
      constructor
      · intro h; cases h
      · intro h; cases h
    | cons y ys =>
      simp only [charListLt]
      exact iff_of_true trivial List.Lex.nil
  | cons x xs ih =>
    intro b
    cases b with
    | nil =>
      simp only [charListLt]
      constructor
      · intro h; cases h
      · intro h; cases h
    | cons y ys =>
      simp only [charListLt, Bool.or_eq_true, Bool.and_eq_true, decide_eq_true_eq]
      constructor
      · rintro (hlt | ⟨heq, hrec⟩)
        · exact List.Lex.rel hlt
        · subst heq; exact List.Lex.cons ((ih ys).mp hrec)
      · intro h
        cases h with
        | cons h => exact Or.inr ⟨rfl, (ih ys).mpr h⟩
        | rel h => exact Or.inl h

/-- The comparator agrees with the `String` order. -/
theorem nameLt_iff (a b : String) : nameLt a b = true ↔ a < b := by
  rw [nameLt, charListLt_iff, String.lt_iff_toList_lt]
  exact Iff.rfl

/-- Failing the comparator one way is exactly the other `≤`. -/
theorem nameLt_false_iff (a b : String) : nameLt b a = false ↔ a ≤ b := by
  rw [← not_lt, ← nameLt_iff b a]
  constructor
  · intro h hc; rw [h] at hc; cases hc
  · intro h; cases hv : nameLt b a with
    | false => rfl
    | true => exact absurd hv h

/-- Inserting is a permutation. -/
theorem insertByName_perm (p : Parameter) (l : List Parameter) :
    List.Perm (insertByName p l) (p :: l) := by
  induction l with
  | nil => simp [insertByName]
  | cons q qs ih =>
    simp only [insertByName]
    split
    · exact List.Perm.refl _
    · exact (ih.cons q).trans (List.Perm.swap p q qs)

/-- Sorting is a permutation. -/
theorem sortByName_perm (l : List Parameter) : List.Perm (sortByName l) l := by
  induction l with
  | nil => exact List.Perm.refl _
  | cons p ps ih =>
    simp only [sortByName]
    exact ((insertByName_perm p (sortByName ps)).trans (ih.cons p))

/-- Sortedness by name, with the standard `String` order. -/
def NamesSorted (l : List Parameter) : Prop :=
  l.Pairwise (fun a b => a.name ≤ b.name)

/-- Strict sortedness by name. -/
def NamesStrictSorted (l : List Parameter) : Prop :=
  l.Pairwise (fun a b => a.name < b.name)

/-- Inserting preserves sortedness. -/
theorem insertByName_sorted (p : Parameter) (l : List Parameter) (h : NamesSorted l) :
    NamesSorted (insertByName p l) := by
  induction l with
  | nil => simp [insertByName, NamesSorted]
  | cons q qs ih =>
    rw [NamesSorted, List.pairwise_cons] at h
    obtain ⟨hq, hqs⟩ := h
    simp only [insertByName]
    split
    case isTrue hlt =>
      have hpq : p.name ≤ q.name := le_of_lt ((nameLt_iff _ _).mp hlt)
      rw [NamesSorted, List.pairwise_cons]
      refine ⟨?_, List.pairwise_cons.mpr ⟨hq, hqs⟩⟩
      intro x hx
      rcases List.mem_cons.mp hx with hx | hx
      · rw [hx]; exact hpq
      · exact hpq.trans (hq x hx)
    case isFalse hnlt =>
      have hqp : q.name ≤ p.name := by
        rw [← nameLt_false_iff]
        exact Bool.not_eq_true _ |>.mp hnlt
      rw [NamesSorted, List.pairwise_cons]
      refine ⟨?_, ih hqs⟩
      intro x hx
      have hx2 : x ∈ p :: qs := ((insertByName_perm p qs).mem_iff).mp hx
      rcases List.mem_cons.mp hx2 with hx2 | hx2
      · rw [hx2]; exact hqp
      · exact hq x hx2

/-- The sort output is sorted by name. -/
theorem sortByName_sorted (l : List Parameter) : NamesSorted (sortByName l) := by
  induction l with
  | nil => simp [sortByName, NamesSorted]
  | cons p ps ih => exact insertByName_sorted p (sortByName ps) ih

/-- Inserting a minimal element is a cons. -/
theorem insertByName_of_lt (p : Parameter) (l : List Parameter)
    (h : ∀ q ∈ l, p.name < q.name) : insertByName p l = p :: l := by
  cases l with
  | nil => rfl
  | cons q qs =>
    simp only [insertByName]
    rw [if_pos ((nameLt_iff _ _).mpr (h q (List.mem_cons_self q qs)))]

/-- Sorting leaves a strictly sorted list unchanged. -/
theorem sortByName_eq_of_strict (l : List Parameter) (h : NamesStrictSorted l) :
    sortByName l = l := by
  induction l with
  | nil => rfl
  | cons p ps ih =>
    rw [NamesStrictSorted, List.pairwise_cons] at h
    obtain ⟨hp, hps⟩ := h
    simp only [sortByName]
    rw [ih hps]
    exact insertByName_of_lt p ps hp

/-- Sortedness plus distinct names gives strict sortedness. -/
theorem strict_of_sorted_nodup (l : List Parameter) (hs : NamesSorted l)
    (hn : (l.map Parameter.name).Nodup) : NamesStrictSorted l := by
  rw [NamesStrictSorted]
  have hpn : l.Pairwise (fun a b => a.name ≠ b.name) := by
    rw [List.Nodup, List.pairwise_map] at hn
    exact hn
  exact (hs.and hpn).imp (fun h => lt_of_le_of_ne h.1 h.2)

/-- Replacing the latest write does not change the list of names. -/
theorem applyLatest_map_name (w : Parameter) (l : List Parameter) :
    (applyLatest w l).map Parameter.name = l.map Parameter.name := by
  induction l with
  | nil => rfl
  | cons p ps ih =>
    simp only [applyLatest]
    split
    case isTrue h => simp [h]
    case isFalse h => simp [ih]

/-- Sorting twice equals sorting once, provided the names are distinct. -/
theorem sortByName_idem (l : List Parameter) (hn : (l.map Parameter.name).Nodup) :
    sortByName (sortByName l) = sortByName l := by
  apply sortByName_eq_of_strict
  apply strict_of_sorted_nodup _ (sortByName_sorted l)
  exact (((sortByName_perm l).map Parameter.name).nodup_iff).mpr hn

/-- When no entry matches, the reconciler replacement is the identity. -/
theorem applyLatest_of_no_match (w : Parameter) (l : List Parameter)
    (h : ∀ p ∈ l, p.name ≠ w.name) : applyLatest w l = l := by
  induction l with
  | nil => rfl
  | cons p ps ih =>
    simp only [applyLatest]
    rw [if_neg (h p (List.mem_cons_self p ps)), ih (fun q hq => h q (List.mem_cons_of_mem p hq))]

/-- When the first match is at index `i`, the replacement is `l.set i w`. -/
theorem applyLatest_eq_set (w : Parameter) :
    ∀ (l : List Parameter) (i : Nat) (hi : i < l.length),
      (l.get ⟨i, hi⟩).name = w.name →
      (∀ j (hj : j < i), (l.get ⟨j, Nat.lt_trans hj hi⟩).name ≠ w.name) →
      applyLatest w l = l.set i w := by
  intro l
  induction l with
  | nil => intro i hi; exact absurd hi (by simp)
  | cons p ps ih =>
    intro i hi hmatch hfirst
    cases i with
    | zero =>
      simp only [List.get] at hmatch
      simp only [applyLatest, List.set]
      rw [if_pos hmatch]
    | succ i =>
      have hp : p.name ≠ w.name := hfirst 0 (Nat.succ_pos i)
      simp only [applyLatest, List.set]
      rw [if_neg hp]
      have hrec := ih i (Nat.lt_of_succ_lt_succ hi) hmatch
        (fun j hj => hfirst (j + 1) (Nat.succ_lt_succ hj))
      rw [hrec]

/-- The retry loop makes at most `fuel` attempts. -/
theorem retryAux_fst_le (o : Nat → Option String) :
    ∀ (f i : Nat), (retryAux o i f).1 ≤ f := by
  intro f
  induction f with
  | zero => intro i; simp [retryAux]
  | succ f ih =>
    intro i
    simp only [retryAux]
    cases o i with
    | none => simp
    | some e => simpa using Nat.succ_le_succ (ih (i + 1))

/-- If attempt `i + k` is the first success, the loop stops after `k + 1` calls. -/
theorem retryAux_success (o : Nat → Option String) :
    ∀ (k f i : Nat), k < f → o (i + k) = none → (∀ j, j < k → o (i + j) ≠ none) →
      retryAux o i f = (k + 1, none) := by
  intro k
  induction k with
  | zero =>
    intro f i hf hk _
    cases f with
    | zero => omega
    | succ f =>
      simp only [retryAux]
      rw [show i + 0 = i from rfl] at hk
      rw [hk]
  | succ k ih =>
    intro f i hf hk hfail
    cases f with
    | zero => omega
    | succ f =>
      simp only [retryAux]
      cases ho : o i with
      | none =>
        have h0 : o (i + 0) ≠ none := hfail 0 (Nat.succ_pos k)
        rw [show i + 0 = i from rfl] at h0
        exact absurd ho h0
      | some e =>
        have hrec : retryAux o (i + 1) f = (k + 1, none) := by
          apply ih f (i + 1) (Nat.lt_of_succ_lt_succ hf)
          · rw [show i + 1 + k = i + (k + 1) from by omega]
            exact hk
          · intro j hj
            rw [show i + 1 + j = i + (j + 1) from by omega]
            exact hfail (j + 1) (Nat.succ_lt_succ hj)
        simp [hrec]

/-- If every attempt fails, the loop uses all its fuel and returns the
terminal error. -/
theorem retryAux_fail (o : Nat → Option String) :
    ∀ (f i : Nat), (∀ k, k < f → o (i + k) ≠ none) →
      retryAux o i f = (f, some retryFailMsg) := by
  intro f
  induction f with
  | zero => intro i _; rfl
  | succ f ih =>
    intro i hfail
    simp only [retryAux]
    cases ho : o i with
    | none =>
      have h0 : o (i + 0) ≠ none := hfail 0 (Nat.succ_pos f)
      rw [show i + 0 = i from rfl] at h0
      exact absurd ho h0
    | some e =>
      have hrec := ih (i + 1) (fun k hk => by
        rw [show i + 1 + k = i + (k + 1) from by omega]
        exact hfail (k + 1) (Nat.succ_lt_succ hk))
      simp [hrec]

/-- The replacement either changes nothing or substitutes one matching entry. -/
theorem applyLatest_cases (w : Parameter) (l : List Parameter) :
    applyLatest w l = l ∨
      ∃ i, ∃ hi : i < l.length, (l.get ⟨i, hi⟩).name = w.name ∧ applyLatest w l = l.set i w := by
  induction l with
  | nil => left; rfl
  | cons p ps ih =>
    by_cases h : p.name = w.name
    · right
      refine ⟨0, Nat.succ_pos _, h, ?_⟩
      simp only [applyLatest, List.set]
      rw [if_pos h]
    · rcases ih with h1 | ⟨i, hi, hm, he⟩
      · left
        simp only [applyLatest]
        rw [if_neg h, h1]
      · right
        refine ⟨i + 1, Nat.succ_lt_succ hi, hm, ?_⟩
        simp only [applyLatest, List.set]
        rw [if_neg h, he]

/-- The wrapped fetch error can never be the sentinel quit message
(the prefixes alone are longer than `"user quit"`). -/
theorem fetch_err_ne_quit (e : String) :
    ("error fetching parameters: " ++ e) ≠ "user quit" := by
  intro hEq
  have hlen := congrArg String.length hEq
  rw [String.length_append] at hlen
  have h1 : ("error fetching parameters: " : String).length = 27 := by decide
  have h2 : ("user quit" : String).length = 9 := by decide
  omega

/-- The wrapped action-prompt error can never be the sentinel quit message. -/
theorem action_err_ne_quit (e : String) :
    ("error prompting for action: " ++ e) ≠ "user quit" := by
  intro hEq
  have hlen := congrArg String.length hEq
  rw [String.length_append] at hlen
  have h1 : ("error prompting for action: " : String).length = 28 := by decide
  have h2 : ("user quit" : String).length = 9 := by decide
  omega

/-! ## Claims -/

/-- C3 (amended): in the SSMManager variant, `updateParameterWithRetry` makes at
most 5 attempts (the delay constant is 200 ms), returns success at the first
successful attempt (after `k + 1` calls when attempt `k` is the first success),
and when every attempt fails makes exactly 5 attempts and returns the terminal
error naming the attempt count. The part_001 variant's `updateParameter`, by
contrast, issues exactly one attempt and passes the remote error through
unchanged — it has no retry loop and its error names no attempt count. -/
theorem C3_retry_policy (o : Nat → Option String) :
    maxRetries = 5 ∧ retryDelayMs = 200 ∧
    (updateParameterWithRetry o).1 ≤ maxRetries ∧
    (∀ k, k < maxRetries → o k = none → (∀ j, j < k → o j ≠ none) →
      updateParameterWithRetry o = (k + 1, none)) ∧
    ((∀ k, k < maxRetries → o k ≠ none) →
      updateParameterWithRetry o = (maxRetries, some "failed to update parameter after 5 attempts")) ∧
    (putOnce_part001 o).1 = 1 ∧ (putOnce_part001 o).2 = o 0 := by
  refine ⟨rfl, rfl, retryAux_fst_le o maxRetries 0, ?_, ?_, rfl, rfl⟩
  · intro k hk hs hfail
    rw [updateParameterWithRetry]
    apply retryAux_success o k maxRetries 0 hk
    · simpa using hs
    · intro j hj
      simpa using hfail j hj
  · intro hfail
    rw [updateParameterWithRetry]
    have h := retryAux_fail o maxRetries 0 (fun k hk => by simpa using hfail k hk)
    rw [h]
    have hmsg : retryFailMsg = "failed to update parameter after 5 attempts" := by decide
    rw [hmsg]

/-- C3 witness: first success at attempt index 2 stops the retry loop after 3
calls with a nil error. -/
theorem C3_retry_policy_witness :
    updateParameterWithRetry (fun k => if k = 2 then none else some "boom") = (3, none) :=
  ((C3_retry_policy (fun k => if k = 2 then none else some "boom")).2.2.2.1) 2 (by decide)
    (by decide) (by decide)

/-- C3 counterexample: in the part_001 variant a persist whose write fails makes
exactly one PutParameter call — not 5 — and the surfaced error is the remote
error itself, which names no attempt count. -/
theorem C3_counterexample :
    putOnce_part001 (fun _ => some "RemoteError") = (1, some "RemoteError") ∧
    (1 : Nat) ≠ maxRetries := by
  exact ⟨rfl, by decide⟩

/-- C4 (confirmed): reconciliation of a fetched listing `L` with a cached
latest write `w` — with no cache the output is `L` sorted; when no entry of
`L` has the cached name the output is `L` sorted; when the first matching
entry is at index `i` the pre-sort replacement is exactly `L.set i w` (so the
matching position holds `w`, whose value is the cached value, and every other
position is unchanged) and the output is that list sorted; in all cases the
replacement is `L` with at most one entry substituted, then sorted. -/
theorem C4_reconciliation (L : List Parameter) (w : Parameter) :
    reconcile none L = sortByName L ∧
    ((∀ p ∈ L, p.name ≠ w.name) → reconcile (some w) L = sortByName L) ∧
    (∀ i, ∀ hi : i < L.length, (L.get ⟨i, hi⟩).name = w.name →
      (∀ j, ∀ hj : j < i, (L.get ⟨j, Nat.lt_trans hj hi⟩).name ≠ w.name) →
      applyLatest w L = L.set i w ∧
      reconcile (some w) L = sortByName (L.set i w) ∧
      (L.set i w)[i]? = some w ∧
      (∀ j, j ≠ i → (L.set i w)[j]? = L[j]?)) ∧
    (applyLatest w L = L ∨ ∃ i, ∃ hi : i < L.length,
      (L.get ⟨i, hi⟩).name = w.name ∧ applyLatest w L = L.set i w) := by
  refine ⟨rfl, ?_, ?_, applyLatest_cases w L⟩
  · intro h
    rw [reconcile, applyLatestOpt, applyLatest_of_no_match w L h]
  · intro i hi hm hfirst
    have hset := applyLatest_eq_set w L i hi hm hfirst
    refine ⟨hset, ?_, ?_, ?_⟩
    · rw [reconcile, applyLatestOpt, hset]
    · rw [List.getElem?_set_self (by simpa using hi)]
    · intro j hj
      rw [List.getElem?_set_ne (fun hEq => hj hEq.symm)]

/-- C4 witness: reconciling `{A=1, B=2}` with a cached write `B=3` yields the
sorted listing with exactly the `B` entry substituted. -/
theorem C4_reconciliation_witness :
    reconcile (some ⟨"/app/test/B", "3", "String"⟩)
        [⟨"/app/test/A", "1", "String"⟩, ⟨"/app/test/B", "2", "String"⟩] =
      sortByName ([⟨"/app/test/A", "1", "String"⟩, ⟨"/app/test/B", "2", "String"⟩].set 1
        ⟨"/app/test/B", "3", "String"⟩) := by
  have hlen : 1 < ([⟨"/app/test/A", "1", "String"⟩, ⟨"/app/test/B", "2", "String"⟩] :
      List Parameter).length := by decide
  have hmatch : (([⟨"/app/test/A", "1", "String"⟩, ⟨"/app/test/B", "2", "String"⟩] :
      List Parameter).get ⟨1, hlen⟩).name = Parameter.name ⟨"/app/test/B", "3", "String"⟩ := rfl
  have hfirst : ∀ j, ∀ hj : j < 1,
      (([⟨"/app/test/A", "1", "String"⟩, ⟨"/app/test/B", "2", "String"⟩] :
        List Parameter).get ⟨j, Nat.lt_trans hj hlen⟩).name ≠
        Parameter.name ⟨"/app/test/B", "3", "String"⟩ := by
    intro j hj
    have hj0 : j = 0 := Nat.lt_one_iff.mp hj
    subst hj0
    exact (by decide : ("/app/test/A" : String) ≠ "/app/test/B")
  exact ((C4_reconciliation [⟨"/app/test/A", "1", "String"⟩, ⟨"/app/test/B", "2", "String"⟩]
    ⟨"/app/test/B", "3", "String"⟩).2.2.1 1 hlen hmatch hfirst).2.1

/-- C9 (confirmed): the reconciled listing is always sorted ascending by full
name (the lexicographic, case-sensitive `String` order), and — names being
pairwise distinct, as full SSM names are — sorting it again leaves it
unchanged. -/
theorem C9_sorted_idempotent (L : List Parameter) (latest : Option Parameter) :
    (reconcile latest L).Pairwise (fun a b => a.name ≤ b.name) ∧
    ((L.map Parameter.name).Nodup →
      sortByName (reconcile latest L) = reconcile latest L) := by
  constructor
  · exact sortByName_sorted _
  · intro hn
    rw [reconcile]
    apply sortByName_idem
    cases latest with
    | none => simpa [applyLatestOpt] using hn
    | some w =>
      rw [applyLatestOpt, applyLatest_map_name]
      exact hn

/-- C9 witness: a concrete two-entry listing with distinct names re-sorts to
itself after reconciliation. -/
theorem C9_sorted_idempotent_witness :
    (([⟨"/app/test/B", "2", "String"⟩, ⟨"/app/test/A", "1", "String"⟩] :
        List Parameter).map Parameter.name).Nodup ∧
    sortByName (reconcile none [⟨"/app/test/B", "2", "String"⟩, ⟨"/app/test/A", "1", "String"⟩]) =
      reconcile none [⟨"/app/test/B", "2", "String"⟩, ⟨"/app/test/A", "1", "String"⟩] :=
  ⟨by decide,
   (C9_sorted_idempotent [⟨"/app/test/B", "2", "String"⟩, ⟨"/app/test/A", "1", "String"⟩] none).2
     (by decide)⟩

/-- C7 (confirmed): in part_001's formatter, when secure mode is on every line
for a `SecureString` entry shows the fixed placeholder in place of the value
(the right-hand side does not depend on the entry's value at all); an entry of
any other kind, and every entry when secure mode is off, shows its true value.
The SSMManager variant's formatter (no secure mode) always shows the true
value. -/
theorem C7_masking (ps : List Parameter) (secure : Bool) (pfx : String) (i : Nat)
    (hi : i < ps.length) :
    (formatParameters ps secure)[i]? = some (formatParameter secure (ps.get ⟨i, hi⟩)) ∧
    (secure = true → (ps.get ⟨i, hi⟩).type = "SecureString" →
      formatParameter secure (ps.get ⟨i, hi⟩) =
        lastComp (ps.get ⟨i, hi⟩).name ++ " = " ++ maskSecret) ∧
    ((ps.get ⟨i, hi⟩).type ≠ "SecureString" →
      formatParameter secure (ps.get ⟨i, hi⟩) =
        lastComp (ps.get ⟨i, hi⟩).name ++ " = " ++ (ps.get ⟨i, hi⟩).value) ∧
    (secure = false →
      formatParameter secure (ps.get ⟨i, hi⟩) =
        lastComp (ps.get ⟨i, hi⟩).name ++ " = " ++ (ps.get ⟨i, hi⟩).value) ∧
    (formatParameters_main pfx ps)[i]? =
      some (trimPre pfx (ps.get ⟨i, hi⟩).name ++ " = " ++ (ps.get ⟨i, hi⟩).value) := by
  refine ⟨?_, ?_, ?_, ?_, ?_⟩
  · rw [formatParameters, List.getElem?_map, List.getElem?_eq_getElem hi]
    rfl
  · intro hsec ht
    rw [formatParameter, if_pos]
    rw [hsec, ht]
    simp
  · intro ht
    rw [formatParameter, if_neg]
    simp only [Bool.and_eq_true, beq_iff_eq]
    exact fun h => ht h.2
  · intro hsec
    rw [formatParameter, if_neg]
    rw [hsec]
    simp
  · rw [formatParameters_main, List.getElem?_map, List.getElem?_eq_getElem hi]
    rfl

/-- C7 witness: a concrete `SecureString` entry is masked under secure mode. -/
theorem C7_masking_witness :
    formatParameter true (([⟨"/app/test/S", "hunter2", "SecureString"⟩] :
        List Parameter).get ⟨0, by decide⟩) =
      lastComp (([⟨"/app/test/S", "hunter2", "SecureString"⟩] :
        List Parameter).get ⟨0, by decide⟩).name ++ " = " ++ maskSecret :=
  (C7_masking [⟨"/app/test/S", "hunter2", "SecureString"⟩] true "/app/test/" 0 (by decide)).2.1
    rfl rfl

/-- C1 (amended): creation issues a write in create mode (overwrite disabled)
only in the part_001 variant, where a duplicate name makes the store reject the
write and the existing entry's value stays unchanged. The SSMManager variant's
`createNewParameter` instead reuses `updateParameterWithRetry`, whose write has
the overwrite flag enabled, so creating an already-existing name succeeds and
silently overwrites the existing entry. -/
theorem C1_create_modes (pfx nm v t : String) (store : List Parameter)
    (hexists : store.any (fun p => p.name == pfx ++ nm) = true) :
    (createPut_part001 pfx nm v t).overwrite = false ∧
    putParameter store (createPut_part001 pfx nm v t) = (store, some "ParameterAlreadyExists") ∧
    (createPut_main pfx nm v t).overwrite = true ∧
    (putParameter store (createPut_main pfx nm v t)).2 = none := by
  refine ⟨rfl, ?_, rfl, ?_⟩
  · simp only [putParameter, createPut_part001]
    rw [if_pos hexists]
    simp
  · simp only [putParameter, createPut_main]
    rw [if_pos hexists]
    simp

/-- C1 witness: with `/app/test/A = 1` already in the store, part_001's create
of `A` fails with the duplicate error and the store is unchanged. -/
theorem C1_create_modes_witness :
    putParameter [⟨"/app/test/A", "1", "String"⟩]
        (createPut_part001 "/app/test/" "A" "2" "String") =
      ([⟨"/app/test/A", "1", "String"⟩], some "ParameterAlreadyExists") :=
  (C1_create_modes "/app/test/" "A" "2" "String" [⟨"/app/test/A", "1", "String"⟩]
    (by decide)).2.1

/-- C1 counterexample: with `/app/test/A = 1` already in the store, the
SSMManager variant's create of `A` with value `2` does not fail — the write
succeeds and the existing entry's value is silently overwritten. -/
theorem C1_counterexample :
    putParameter [⟨"/app/test/A", "1", "String"⟩]
        (createPut_main "/app/test/" "A" "2" "String") =
      ([⟨"/app/test/A", "2", "String"⟩], none) := by decide

/-- C2 (amended): when the fetch fails, the part_001 variant reports and halts
the whole session (no write, cache untouched). The SSMManager variant's `run`
returns the wrapped fetch error, but its `main` loop only halts on the exact
message `"user quit"`, so the error is logged and the loop starts another
iteration — re-attempting the read — instead of halting. -/
theorem C2_fetch_error (secure : Bool) (pfx : String) (latest : Option Parameter) (e : String) :
    (∀ sel cn cv ct er we,
      iterate_part001 secure pfx latest ⟨.error e, sel, cn, cv, ct, er, we⟩ =
        ⟨.halt, latest, none⟩) ∧
    (∀ act cn cv ct er po,
      run_main pfx latest ⟨.error e, act, cn, cv, ct, er, po⟩ =
        ⟨some ("error fetching parameters: " ++ e), latest, none⟩) ∧
    (∀ act cn cv ct er po,
      mainLoopDecision (run_main pfx latest ⟨.error e, act, cn, cv, ct, er, po⟩) = .loop) := by
  refine ⟨?_, ?_, ?_⟩
  · intro sel cn cv ct er we
    rfl
  · intro act cn cv ct er po
    rfl
  · intro act cn cv ct er po
    show (if ("error fetching parameters: " ++ e) = "user quit" then LoopDecision.halt
      else LoopDecision.loop) = LoopDecision.loop
    rw [if_neg (fetch_err_ne_quit e)]

/-- C2 counterexample: a concrete fetch failure in the SSMManager variant is
logged and the loop continues (another iteration, hence another read), instead
of halting the session as the claim states. -/
theorem C2_counterexample :
    mainLoopDecision (run_main "/app/test/" none
        ⟨.error "AccessDeniedException", .quitItem, .ok "", .ok "", .ok "", .ok "",
          fun _ => none⟩) = .loop := by decide

/-- C5 (amended): during an edit, the SSMManager variant skips the write (and
leaves the cache untouched) exactly when the trimmed submission equals the
selected entry's current value — an empty submission different from the current
value is written. The part_001 variant skips the write when the trimmed
submission is empty or equals the compared current value, which is the entry's
value with secure mode off but the empty pre-fill under secure mode. -/
theorem C5_noop_edit (pfx : String) (latest : Option Parameter) (secure : Bool) :
    (∀ params item p raw cn cv ct po,
      (reconcile latest params).find? (fun q => q.name == pfx ++ extractKey item) = some p →
      trimString raw = p.value →
      run_main pfx latest ⟨.ok params, .selection item, cn, cv, ct, .ok raw, po⟩ =
        ⟨none, latest, none⟩) ∧
    (∀ ps i raw cn cv ct we, ∀ h : i < (reconcile latest ps).length,
      (trimString raw = "" ∨
        trimString raw = (if secure then "" else ((reconcile latest ps).get ⟨i, h⟩).value)) →
      iterate_part001 secure pfx latest ⟨.ok ps, .selected (i + 1), cn, cv, ct, .ok raw, we⟩ =
        ⟨.loop, latest, none⟩) := by
  constructor
  · intro params item p raw cn cv ct po hfind hval
    simp only [run_main]
    rw [hfind]
    dsimp only
    rw [if_pos hval]
  · intro ps i raw cn cv ct we h hskip
    simp only [iterate_part001]
    rw [dif_pos h]
    rw [if_pos hskip]

/-- C5 witness: submitting the unchanged current value in the SSMManager
variant results in no write and an untouched cache. -/
theorem C5_noop_edit_witness :
    run_main "/app/test/" none
        ⟨.ok [⟨"/app/test/A", "x", "String"⟩], .selection "A = x", .ok "", .ok "", .ok "",
          .ok "x", fun _ => none⟩ =
      ⟨none, none, none⟩ :=
  (C5_noop_edit "/app/test/" none false).1 [⟨"/app/test/A", "x", "String"⟩] "A = x"
    ⟨"/app/test/A", "x", "String"⟩ "x" (.ok "") (.ok "") (.ok "") (fun _ => none)
    (by decide) (by decide)

/-- C5 counterexample: in the SSMManager variant, submitting the empty string
while the current value is `"x"` does invoke a write (of the empty value) and
mutates the cache — the claim says an empty submission never writes. -/
theorem C5_counterexample :
    run_main "/app/test/" none
        ⟨.ok [⟨"/app/test/A", "x", "String"⟩], .selection "A = x", .ok "", .ok "", .ok "",
          .ok "", fun _ => none⟩ =
      ⟨none, some ⟨"/app/test/A", "", "String"⟩, some ⟨"/app/test/A", "", "String", true⟩⟩ := by
  decide

/-- C6 (amended): after a successful edit persist, in both the SSMManager and
part_001 variants, the cached LatestWrite equals the newly written entry
(name, value, kind), and after a failed persist it is left untouched. A create,
however — successful or not, in either variant — never updates LatestWrite:
only edits populate the cache. -/
theorem C6_latest_write (pfx : String) (latest : Option Parameter) (secure : Bool) :
    (∀ params item p raw cn cv ct po,
      (reconcile latest params).find? (fun q => q.name == pfx ++ extractKey item) = some p →
      trimString raw ≠ p.value →
      ((updateParameterWithRetry po).2 = none →
        run_main pfx latest ⟨.ok params, .selection item, cn, cv, ct, .ok raw, po⟩ =
          ⟨none, some ⟨pfx ++ extractKey item, trimString raw, p.type⟩,
            some ⟨pfx ++ extractKey item, trimString raw, p.type, true⟩⟩) ∧
      (∀ e, (updateParameterWithRetry po).2 = some e →
        run_main pfx latest ⟨.ok params, .selection item, cn, cv, ct, .ok raw, po⟩ =
          ⟨some ("error updating parameter: " ++ e), latest,
            some ⟨pfx ++ extractKey item, trimString raw, p.type, true⟩⟩)) ∧
    (∀ fetched cn cv ct er po,
      (run_main pfx latest ⟨fetched, .createItem, cn, cv, ct, er, po⟩).latest = latest) ∧
    (∀ fetched cn cv ct er we,
      (iterate_part001 secure pfx latest ⟨fetched, .selected 0, cn, cv, ct, er, we⟩).latest =
        latest) ∧
    (∀ ps i raw cn cv ct, ∀ h : i < (reconcile latest ps).length,
      trimString raw ≠ "" →
      trimString raw ≠ (if secure then "" else ((reconcile latest ps).get ⟨i, h⟩).value) →
      (iterate_part001 secure pfx latest ⟨.ok ps, .selected (i + 1), cn, cv, ct, .ok raw, none⟩ =
        ⟨.loop,
          some ⟨pfx ++ extractKey (formatParameter secure ((reconcile latest ps).get ⟨i, h⟩)),
            trimString raw, ((reconcile latest ps).get ⟨i, h⟩).type⟩,
          some ⟨pfx ++ extractKey (formatParameter secure ((reconcile latest ps).get ⟨i, h⟩)),
            trimString raw, ((reconcile latest ps).get ⟨i, h⟩).type, true⟩⟩) ∧
      (∀ e, iterate_part001 secure pfx latest
          ⟨.ok ps, .selected (i + 1), cn, cv, ct, .ok raw, some e⟩ =
        ⟨.loop, latest,
          some ⟨pfx ++ extractKey (formatParameter secure ((reconcile latest ps).get ⟨i, h⟩)),
            trimString raw, ((reconcile latest ps).get ⟨i, h⟩).type, true⟩⟩)) := by
  refine ⟨?_, ?_, ?_, ?_⟩
  · intro params item p raw cn cv ct po hfind hne
    constructor
    · intro hok
      simp only [run_main]
      rw [hfind]
      dsimp only
      rw [if_neg hne, hok]
    · intro e herr
      simp only [run_main]
      rw [hfind]
      dsimp only
      rw [if_neg hne, herr]
  · intro fetched cn cv ct er po
    cases fetched with
    | error e => rfl
    | ok params =>
      cases cn with
      | interrupted => rfl
      | ok cname =>
        cases cv with
        | interrupted => rfl
        | ok cvalue =>
          cases ct with
          | interrupted => rfl
          | ok ctype =>
            simp only [run_main]
            cases hro : (updateParameterWithRetry po).2 with
            | none => rfl
            | some e => rfl
  · intro fetched cn cv ct er we
    cases fetched with
    | error e => rfl
    | ok params =>
      simp only [iterate_part001]
      cases hcf : createFlow_part001 pfx cn cv ct with
      | none => rfl
      | some put => rfl
  · intro ps i raw cn cv ct h h1 h2
    have hcond : ¬ (trimString raw = "" ∨
        trimString raw = (if secure then "" else ((reconcile latest ps).get ⟨i, h⟩).value)) := by
      rintro (hc | hc)
      · exact h1 hc
      · exact h2 hc
    constructor
    · simp only [iterate_part001]
      rw [dif_pos h]
      rw [if_neg hcond]
    · intro e
      simp only [iterate_part001]
      rw [dif_pos h]
      rw [if_neg hcond]

/-- C6 witness: a successful edit of `/app/test/A` from `x` to `y` in the
SSMManager variant sets the cache to the written entry. -/
theorem C6_latest_write_witness :
    run_main "/app/test/" none
        ⟨.ok [⟨"/app/test/A", "x", "String"⟩], .selection "A = x", .ok "", .ok "", .ok "",
          .ok "y", fun _ => none⟩ =
      ⟨none, some ⟨"/app/test/" ++ extractKey "A = x", trimString "y", "String"⟩,
        some ⟨"/app/test/" ++ extractKey "A = x", trimString "y", "String", true⟩⟩ :=
  ((C6_latest_write "/app/test/" none false).1 [⟨"/app/test/A", "x", "String"⟩] "A = x"
    ⟨"/app/test/A", "x", "String"⟩ "y" (.ok "") (.ok "") (.ok "") (fun _ => none)
    (by decide) (by decide)).1 (by decide)

/-- C6 counterexample: a successful create in the SSMManager variant (nil
error, write issued) leaves the cache at `none` instead of the newly written
entry — the next listing does not reflect the creation until the store
converges. -/
theorem C6_counterexample :
    run_main "/app/test/" none
        ⟨.ok [], .createItem, .ok "A", .ok "1", .ok "String", .ok "", fun _ => none⟩ =
      ⟨none, none, some ⟨"/app/test/A", "1", "String", true⟩⟩ := by
  decide

/-- C10 (amended): in the SSMManager variant an edit write carries exactly the
selected entry's fully-qualified name and its kind, only the value changing; in
the part_001 variant it carries the selected entry's kind and the name rebuilt
as prefix + displayed key (equal to the entry's name for the direct children
being listed); the legacy variant, however, hardcodes the written kind to
`SecureString`, altering the kind of any non-secret entry it edits. -/
theorem C10_edit_kind (pfx : String) (latest : Option Parameter) (secure : Bool) :
    (∀ params item p raw cn cv ct po,
      (reconcile latest params).find? (fun q => q.name == pfx ++ extractKey item) = some p →
      trimString raw ≠ p.value →
      (run_main pfx latest ⟨.ok params, .selection item, cn, cv, ct, .ok raw, po⟩).write =
        some ⟨p.name, trimString raw, p.type, true⟩) ∧
    (∀ ps i raw cn cv ct we, ∀ h : i < (reconcile latest ps).length,
      trimString raw ≠ "" →
      trimString raw ≠ (if secure then "" else ((reconcile latest ps).get ⟨i, h⟩).value) →
      (iterate_part001 secure pfx latest
          ⟨.ok ps, .selected (i + 1), cn, cv, ct, .ok raw, we⟩).write =
        some ⟨pfx ++ extractKey (formatParameter secure ((reconcile latest ps).get ⟨i, h⟩)),
          trimString raw, ((reconcile latest ps).get ⟨i, h⟩).type, true⟩) ∧
    (∀ p pfx2 v, v ≠ "" →
      editStep_legacy p pfx2 v =
        some ⟨pfx2 ++ extractKey (formatParameter false p), v, "SecureString", true⟩) := by
  refine ⟨?_, ?_, ?_⟩
  · intro params item p raw cn cv ct po hfind hne
    have hname : p.name = pfx ++ extractKey item := by
      have hb := List.find?_some hfind
      exact beq_iff_eq.mp hb
    simp only [run_main]
    rw [hfind]
    dsimp only
    rw [if_neg hne, hname]
    cases hro : (updateParameterWithRetry po).2 with
    | none => rfl
    | some e => rfl
  · intro ps i raw cn cv ct we h h1 h2
    have hcond : ¬ (trimString raw = "" ∨
        trimString raw = (if secure then "" else ((reconcile latest ps).get ⟨i, h⟩).value)) := by
      rintro (hc | hc)
      · exact h1 hc
      · exact h2 hc
    simp only [iterate_part001]
    rw [dif_pos h]
    rw [if_neg hcond]
    cases we with
    | none => rfl
    | some e => rfl
  · intro p pfx2 v hv
    rw [editStep_legacy, if_neg hv]
    rfl

/-- C10 witness: a concrete SSMManager edit write carries the selected entry's
name and kind with only the value changed. -/
theorem C10_edit_kind_witness :
    (run_main "/app/test/" none
        ⟨.ok [⟨"/app/test/B", "1", "String"⟩], .selection "B = 1", .ok "", .ok "", .ok "",
          .ok "9", fun _ => none⟩).write =
      some ⟨Parameter.name ⟨"/app/test/B", "1", "String"⟩, trimString "9", "String", true⟩ :=
  (C10_edit_kind "/app/test/" none false).1 [⟨"/app/test/B", "1", "String"⟩] "B = 1"
    ⟨"/app/test/B", "1", "String"⟩ "9" (.ok "") (.ok "") (.ok "") (fun _ => none)
    (by decide) (by decide)

/-- C10 counterexample: the legacy variant edits an entry whose kind is
`String`, yet the write it sends carries kind `SecureString` — the kind is
altered by the edit. -/
theorem C10_counterexample :
    editStep_legacy ⟨"/app/test/A", "1", "String"⟩ "/app/test/" "2" =
      some ⟨"/app/test/A", "2", "SecureString", true⟩ ∧
    ("SecureString" : String) ≠ "String" := by
  exact ⟨by decide, by decide⟩

/-- C8: in part_001 an interrupt during the selection menu halts the loop
(Quit); an interrupt during the edit prompt or any creation prompt aborts only
that sub-flow, returning to the listing with no write and an untouched cache.
In the SSMManager variant, however, an interrupt during the selection menu does
not terminate the loop: `run` returns the wrapped prompt error, which is not
the `"user quit"` sentinel, so `main` logs it and iterates again — contradicting
the menu's own label, which advertises `ctrl+c: quit`. -/
theorem C8_interrupts (secure : Bool) (pfx : String) (latest : Option Parameter) :
    (∀ ps cn cv ct er we,
      iterate_part001 secure pfx latest ⟨.ok ps, .interrupted, cn, cv, ct, er, we⟩ =
        ⟨.halt, latest, none⟩) ∧
    (∀ ps i cn cv ct we,
      iterate_part001 secure pfx latest
          ⟨.ok ps, .selected (i + 1), cn, cv, ct, .interrupted, we⟩ =
        ⟨.loop, latest, none⟩) ∧
    (∀ ps cv ct er we,
      iterate_part001 secure pfx latest ⟨.ok ps, .selected 0, .interrupted, cv, ct, er, we⟩ =
        ⟨.loop, latest, none⟩) ∧
    (∀ ps cn ct er we,
      iterate_part001 secure pfx latest ⟨.ok ps, .selected 0, cn, .interrupted, ct, er, we⟩ =
        ⟨.loop, latest, none⟩) ∧
    (∀ ps cn cv er we,
      iterate_part001 secure pfx latest ⟨.ok ps, .selected 0, cn, cv, .interrupted, er, we⟩ =
        ⟨.loop, latest, none⟩) ∧
    (∀ fetched cn cv ct er po,
      (run_main pfx latest ⟨fetched, .interrupted, cn, cv, ct, er, po⟩).latest = latest ∧
      (run_main pfx latest ⟨fetched, .interrupted, cn, cv, ct, er, po⟩).write = none ∧
      mainLoopDecision (run_main pfx latest ⟨fetched, .interrupted, cn, cv, ct, er, po⟩) =
        .loop) := by
  refine ⟨?_, ?_, ?_, ?_, ?_, ?_⟩
  · intro ps cn cv ct er we
    rfl
  · intro ps i cn cv ct we
    simp only [iterate_part001]
    split
    · rfl
    · rfl
  · intro ps cv ct er we
    rfl
  · intro ps cn ct er we
    cases cn with
    | interrupted => rfl
    | ok s => rfl
  · intro ps cn cv er we
    cases cn with
    | interrupted => rfl
    | ok s =>
      cases cv with
      | interrupted => rfl
      | ok s2 => rfl
  · intro fetched cn cv ct er po
    cases fetched with
    | error e =>
      refine ⟨rfl, rfl, ?_⟩
      show (if ("error fetching parameters: " ++ e) = "user quit" then LoopDecision.halt
        else LoopDecision.loop) = LoopDecision.loop
      rw [if_neg (fetch_err_ne_quit e)]
    | ok params =>
      refine ⟨rfl, rfl, ?_⟩
      show (if ("error prompting for action: " ++ interruptMsg) = "user quit" then
        LoopDecision.halt else LoopDecision.loop) = LoopDecision.loop
      rw [if_neg (action_err_ne_quit interruptMsg)]

end SsmEnv
